import Mathlib

/-!
Verification of the admission-controlled generation pipeline
(`instruct_data_generate`): a shallow embedding of the Redis-backed
concurrency slot, the retrying backend invokers, the per-sample
generate/evaluate loop, sample sharding, and the job lifecycle manager,
with the spec-level properties proved or refuted about the embedding.
-/

namespace InstructGen

/-! ## Admission controller (model_routes.py)

The Redis key `model_concurrency:<model>` is modelled as `Option Int`:
`none` is an absent key, `some v` a stored counter.  `GET` of an absent
key reads `0` (the Lua script does `tonumber(... or '0')`).

The store is modelled at the granularity of individual Redis commands,
because the release path of `_model_call_sync` is NOT one atomic
operation: it issues a `DECR`, and then — as a second, separate
command — a `DELETE` when the decrement result was ≤ 0.  Commands from
other processes can land between the two. -/

/-- Value the Lua script reads for the slot key: absent reads as 0. -/
def slotVal (s : Option Int) : Int :=
  s.getD 0

/-- The `acquire_slot_script` Lua script: atomically check the counter
against `max_concurrency`, increment (and refresh the TTL, not modelled)
when below, report success as `true`/`false`.  This one is a single
Redis command (scripts execute atomically). -/
def acquireSlot (maxConcurrency : Int) (s : Option Int) : Option Int × Bool :=
  if slotVal s < maxConcurrency then (some (slotVal s + 1), true)
  else (s, false)

/-- One Redis command touching the slot key.  `scriptAcquire` is the
atomic Lua check-and-increment; `decr` and `del` are the two separate
commands of the release path (`redis_client.decr`, then
`redis_client.delete` when the decrement returned ≤ 0). -/
inductive SlotCmd where
  | scriptAcquire
  | decr
  | del
  deriving DecidableEq, Repr

/-- Effect of one Redis command on the stored key.  `DECR` of an absent
key stores `-1` (Redis treats the missing key as 0 and stores the
decremented value); `DELETE` removes the key. -/
def slotCmdStep (maxConcurrency : Int) (s : Option Int) : SlotCmd → Option Int
  | .scriptAcquire => (acquireSlot maxConcurrency s).1
  | .decr => some (slotVal s - 1)
  | .del => none

/-- Run an arbitrary interleaving of Redis commands from an absent key. -/
def runSlotCmds (maxConcurrency : Int) (cmds : List SlotCmd) : Option Int :=
  cmds.foldl (slotCmdStep maxConcurrency) none

/-- C1 counterexample: with capacity 1 the counter can be driven to -1
by a real interleaving, because the release path is two separate
commands.  Caller A acquires (0→1) and releases: its `DECR` lands at 0,
so A will also issue a `DELETE`.  Before that `DELETE`, caller B
acquires through the atomic script (0→1).  A's delayed `DELETE` then
erases the key — wiping out B's increment — and B's own release `DECR`
lands on the absent key, storing -1: the counter is observably negative
until B's `DELETE` runs, refuting the never-goes-negative invariant. -/
theorem slot_negative_cex :
    slotVal (runSlotCmds 1
      [.scriptAcquire, .decr, .scriptAcquire, .del, .decr]) = -1 := by
  decide

lemma slotCmdStep_le (c : Nat) (s : Option Int) (cmd : SlotCmd)
    (hc : slotVal s ≤ (c : Int)) :
    slotVal (slotCmdStep (c : Int) s cmd) ≤ (c : Int) := by
  simp only [slotVal] at hc
  cases cmd with
  | scriptAcquire =>
    simp only [slotCmdStep, acquireSlot, slotVal]
    by_cases hlt : Option.getD s 0 < (c : Int)
    · rw [if_pos hlt]
      simp only [Option.getD_some]
      omega
    · rw [if_neg hlt]
      exact hc
  | decr =>
    simp only [slotCmdStep, slotVal, Option.getD_some]
    omega
  | del =>
    simp only [slotCmdStep, slotVal, Option.getD_none]
    exact_mod_cast Nat.cast_nonneg c

/-- C1 (amended): under every interleaving of the individual Redis
commands — the atomic Lua check-and-increment, and the `DECR` and
`DELETE` of the non-atomic release path — the counter never exceeds the
configured capacity, because only the script increments and only below
capacity.  The never-goes-negative half of the claim fails at this
granularity (see the counterexample): a `DECR` landing on an absent or
zero key stores a negative value until the matching `DELETE` runs. -/
theorem slot_counter_upper_bound (c : Nat) (cmds : List SlotCmd) :
    slotVal (runSlotCmds (c : Int) cmds) ≤ (c : Int) := by
  suffices h : ∀ s, slotVal s ≤ (c : Int) →
      slotVal (cmds.foldl (slotCmdStep (c : Int)) s) ≤ (c : Int) by
    exact h none (by exact_mod_cast Nat.cast_nonneg c)
  induction cmds with
  | nil => intro s hc; exact hc
  | cons cmd rest ih =>
    intro s hc
    exact ih _ (slotCmdStep_le c s cmd hc)

/-! ## Backend invokers

`call_vllm_api_sync` / `call_openai_api_sync` (model_routes.py) and
`DataGenerator.call_api` (single_gen.py) are embedded as fuel-bounded
loops over an oracle `outcomes : Nat → _` giving the observable outcome
of each attempt (the streamed-response accumulation is abstracted into
the text the attempt would return). -/

/-- Outcome of one attempt of the model_routes invokers. -/
inductive ApiOutcome where
  | ok (text : String)
  | timeout
  | connError
  | httpError (status : Nat)
  | otherError (msg : String)
  deriving DecidableEq, Repr

/-- The text of a successful attempt, if any. -/
def okText : ApiOutcome → Option String
  | .ok t => some t
  | _ => none

/-- `raise_for_status` raised a 4xx: the invoker does not retry. -/
def isClientError : ApiOutcome → Bool
  | .httpError s => 400 ≤ s && s < 500
  | _ => false

/-- Error message attached to a failed attempt when it is propagated. -/
def errMsg : ApiOutcome → String
  | .ok _ => ""
  | .timeout => "timeout"
  | .connError => "connection error"
  | .httpError s => "http error " ++ toString s
  | .otherError m => m

/-- Result of an invoker run: the propagated value, how many attempts
were made, and the backoff sleeps performed (in seconds, in order). -/
structure InvokeResult where
  result : Except String String
  attemptsMade : Nat
  sleeps : List Nat
  deriving Repr

/-- The retry loop of `call_vllm_api_sync` starting at `attempt` with
`fuel` attempts left: on a 4xx propagate at once; on any other failure
sleep `(attempt+1)*2` seconds and retry while attempts remain; a 200
returns the trimmed accumulated text. -/
def vllmGo (outcomes : Nat → ApiOutcome) : Nat → Nat → InvokeResult
  | _, 0 => ⟨.error "API call failed", 0, []⟩
  | attempt, fuel + 1 =>
    match okText (outcomes attempt) with
    | some t => ⟨.ok t.trim, 1, []⟩
    | none =>
      if isClientError (outcomes attempt) then
        ⟨.error (errMsg (outcomes attempt)), 1, []⟩
      else if fuel = 0 then
        ⟨.error (errMsg (outcomes attempt)), 1, []⟩
      else
        let r := vllmGo outcomes (attempt + 1) fuel
        ⟨r.result, r.attemptsMade + 1, (attempt + 1) * 2 :: r.sleeps⟩

/-- `call_vllm_api_sync` with `retry_times` attempts. -/
def callVllmApiSync (retryTimes : Nat) (outcomes : Nat → ApiOutcome) : InvokeResult :=
  vllmGo outcomes 0 retryTimes

/-- `call_openai_api_sync` has attempt-for-attempt the same retry
structure (4xx immediate, everything else `(attempt+1)*2` backoff). -/
def callOpenaiApiSync : Nat → (Nat → ApiOutcome) → InvokeResult :=
  callVllmApiSync

/-- Outcome of one attempt of `DataGenerator.call_api`. -/
inductive CallApiOutcome where
  | ok (text : String)
  | badStatus (status : Nat) (body : String)
  | timeout
  | connError
  | serverDisconnected
  | responseError (status : Nat)
  | otherError (msg : String)
  deriving DecidableEq, Repr

/-- The text of a successful (status 200, `[DONE]`-terminated) attempt. -/
def caOkText : CallApiOutcome → Option String
  | .ok t => some t
  | _ => none

/-- Result of a `call_api` run: `none` means all attempts failed (the
function logs and returns `None`, never raising). -/
structure CallApiResult where
  result : Option String
  attemptsMade : Nat
  sleeps : List Nat
  deriving DecidableEq, Repr

/-- The retry loop of `DataGenerator.call_api` starting at `attempt`
with `fuel` attempts left: every failure — a non-200 status (4xx
included), a timeout, a connection error or any other exception — is
retried after sleeping `2 ** attempt` seconds, and after `retry_times`
attempts the call returns `None`. -/
def callApiGo (outcomes : Nat → CallApiOutcome) : Nat → Nat → CallApiResult
  | _, 0 => ⟨none, 0, []⟩
  | attempt, fuel + 1 =>
    match caOkText (outcomes attempt) with
    | some t => ⟨some t.trim, 1, []⟩
    | none =>
      if fuel = 0 then ⟨none, 1, []⟩
      else
        let r := callApiGo outcomes (attempt + 1) fuel
        ⟨r.result, r.attemptsMade + 1, 2 ^ attempt :: r.sleeps⟩

/-- `DataGenerator.call_api` with `retry_times` attempts. -/
def callApi (retryTimes : Nat) (outcomes : Nat → CallApiOutcome) : CallApiResult :=
  callApiGo outcomes 0 retryTimes

lemma vllmGo_const_fail (o : ApiOutcome) (hok : okText o = none)
    (hcl : isClientError o = false) :
    ∀ fuel attempt, vllmGo (fun _ => o) attempt (fuel + 1) =
      ⟨.error (errMsg o), fuel + 1,
        (List.range fuel).map (fun i => (attempt + i + 1) * 2)⟩ := by
  intro fuel
  induction fuel with
  | zero => intro attempt; simp [vllmGo, hok, hcl]
  | succ fuel ih =>
    intro attempt
    have hfun : (attempt + 1) * 2 ::
        (List.range fuel).map (fun i => (attempt + 1 + i + 1) * 2) =
        (List.range (fuel + 1)).map (fun i => (attempt + i + 1) * 2) := by
      rw [List.range_succ_eq_map]
      simp only [List.map_cons, List.map_map, Function.comp_def]
      exact congrArg₂ List.cons (by omega)
        (List.map_congr_left fun i _ => by omega)
    rw [vllmGo]
    simp only [hok, hcl, Bool.false_eq_true, if_false, Nat.succ_ne_zero,
      ih (attempt + 1)]
    rw [← hfun]

lemma callApiGo_const_fail (o : CallApiOutcome) (hok : caOkText o = none) :
    ∀ fuel attempt, callApiGo (fun _ => o) attempt (fuel + 1) =
      ⟨none, fuel + 1, (List.range fuel).map (fun i => 2 ^ (attempt + i))⟩ := by
  intro fuel
  induction fuel with
  | zero => intro attempt; simp [callApiGo, hok]
  | succ fuel ih =>
    intro attempt
    have hfun : 2 ^ attempt ::
        (List.range fuel).map (fun i => 2 ^ (attempt + 1 + i)) =
        (List.range (fuel + 1)).map (fun i => 2 ^ (attempt + i)) := by
      rw [List.range_succ_eq_map]
      simp only [List.map_cons, List.map_map, Function.comp_def]
      exact congrArg₂ List.cons (by rw [Nat.add_zero])
        (List.map_congr_left fun i _ => by rw [show attempt + 1 + i = attempt + (i + 1) by omega])
    rw [callApiGo]
    simp only [hok, Nat.succ_ne_zero, if_false, ih (attempt + 1)]
    rw [← hfun]


/-! ## Generation-evaluation loop (single_gen.py)

`DataGenerator.evaluate_generated_data` and
`DataGenerator.process_single_sample` are embedded with the two network
effects turned into oracles: `gen rc` is the parsed candidate list that
attempt `rc` produces, and `judge rc c` is the parsed judge score of the
single model-scoring call for candidate `c` on attempt `rc` (`none` when
the call fails or the response contains no score in `0..10`). -/

/-- One conversation turn of a candidate (`{role, text}`). -/
structure Turn where
  role : String
  text : String
  deriving DecidableEq, Repr

/-- A model-proposed candidate: the `turns` field of one parsed JSON
object (its other fields are never read by the evaluation path). -/
structure Candidate where
  turns : List Turn
  deriving DecidableEq, Repr

/-- An input sample: metadata plus conversation turns. -/
structure Sample where
  meta : List (String × String)
  turns : List Turn
  deriving DecidableEq, Repr

/-- Python `str.strip()`: drop leading and trailing whitespace
(written over the character list so it evaluates by kernel reduction). -/
def pyStrip (s : String) : String :=
  ⟨((s.data.dropWhile Char.isWhitespace).reverse.dropWhile
      Char.isWhitespace).reverse⟩

/-- Python `s.split(sep)[-1]` for `sep = '/'`: the suffix after the
last slash (the whole string when it has none). -/
def lastAfterSlash (s : String) : String :=
  ⟨(s.data.reverse.takeWhile (fun c => !(c == '/'))).reverse⟩

/-- `assistant_text`: text of the first turn whose role is exactly
`Assistant` (this first scan does not strip the role). -/
def assistantText (turns : List Turn) : String :=
  match turns.find? (fun t => t.role == "Assistant") with
  | some t => t.text
  | none => ""

/-- Number of turns whose stripped role equals `r` (the counting loop
strips the role before comparing). -/
def countRole (turns : List Turn) (r : String) : Nat :=
  (turns.filter (fun t => pyStrip t.role == r)).length

/-- `DataGenerator.evaluate_generated_data`, returning
`(model_score, rule_score, judge_calls)`.  The judge loop runs a single
iteration; a parsed score that is missing, `0` (falsy in Python), or
below `min_score` makes the function return `(0, 0)` early; otherwise
the averaged score of the single call is the score itself. -/
def evalOutcome (formatEval : String → Nat) (minScore : Nat)
    (judge : Option Nat) (turns : List Turn) : Nat × Nat × Nat :=
  if countRole turns "Assistant" = 1 ∧ countRole turns "Human" = 1 then
    if formatEval (assistantText turns) = 10 then
      match judge with
      | none => (0, 0, 1)
      | some s => if s = 0 ∨ s < minScore then (0, 0, 1)
                  else (s, formatEval (assistantText turns), 1)
    else (0, formatEval (assistantText turns), 0)
  else (0, 0, 0)

/-- The acceptance test of `process_single_sample` (line 521):
`model_score >= min_score and rule_score == 10` applied to the pair
returned by `evaluate_generated_data`. -/
def candidateAccepted (formatEval : String → Nat) (minScore : Nat)
    (judge : Option Nat) (turns : List Turn) : Prop :=
  minScore ≤ (evalOutcome formatEval minScore judge turns).1 ∧
    (evalOutcome formatEval minScore judge turns).2.1 = 10

instance (fe : String → Nat) (m : Nat) (j : Option Nat) (ts : List Turn) :
    Decidable (candidateAccepted fe m j ts) := by
  unfold candidateAccepted; infer_instance

/-- Oracle environment of one `process_single_sample` run. -/
structure GenEnv where
  formatEval : String → Nat
  minScore : Nat
  judge : Nat → Candidate → Option Nat
  gen : Nat → List Candidate
  sample : Sample
  model : String
  taskType : String

/-- An accepted candidate enriched with generation metadata
(`complete_data`): the sample metadata plus generation model (final
path component of the model id), scores, task type and retry count.
The wall-clock `generation_time` stamp is not modelled. -/
structure QualifiedData where
  baseMeta : List (String × String)
  generationModel : String
  modelScore : Nat
  ruleScore : Nat
  sourceTask : String
  retryCount : Nat
  turns : List Turn
  deriving DecidableEq, Repr

/-- Build the enriched record for an accepted candidate. -/
def enrich (env : GenEnv) (c : Candidate) (rc m r : Nat) : QualifiedData :=
  { baseMeta := env.sample.meta
    generationModel := lastAfterSlash env.model
    modelScore := m
    ruleScore := r
    sourceTask := env.taskType
    retryCount := rc
    turns := c.turns }

/-- One attempt body of `process_single_sample`: evaluate every parsed
candidate of attempt `rc` and keep the enriched accepted ones. -/
def attemptQualified (env : GenEnv) (rc : Nat) : List QualifiedData :=
  (env.gen rc).filterMap fun c =>
    let e := evalOutcome env.formatEval env.minScore (env.judge rc c) c.turns
    if env.minScore ≤ e.1 ∧ e.2.1 = 10 then some (enrich env c rc e.1 e.2.1)
    else none

/-- The retry loop of `process_single_sample` from retry count `rc` with
`fuel` attempts left, returning the result list and the number of
attempts made: a failed attempt (no parsed candidates, or none
qualified) retries; a qualifying attempt returns immediately. -/
def pssGo (env : GenEnv) : Nat → Nat → List QualifiedData × Nat
  | _, 0 => ([], 0)
  | rc, fuel + 1 =>
    if attemptQualified env rc = [] then
      let r := pssGo env (rc + 1) fuel
      (r.1, r.2 + 1)
    else (attemptQualified env rc, 1)

/-- `process_single_sample` with `sample_retry_times` total attempts. -/
def processSingleSample (env : GenEnv) (sampleRetryTimes : Nat) :
    List QualifiedData × Nat :=
  pssGo env 0 sampleRetryTimes

lemma evalOutcome_judge_none (fe : String → Nat) (minScore : Nat)
    (turns : List Turn) :
    evalOutcome fe minScore none turns =
      if countRole turns "Assistant" = 1 ∧ countRole turns "Human" = 1 then
        if fe (assistantText turns) = 10 then (0, 0, 1)
        else (0, fe (assistantText turns), 0)
      else (0, 0, 0) := rfl

lemma evalOutcome_judge_some (fe : String → Nat) (minScore : Nat)
    (s : Nat) (turns : List Turn) :
    evalOutcome fe minScore (some s) turns =
      if countRole turns "Assistant" = 1 ∧ countRole turns "Human" = 1 then
        if fe (assistantText turns) = 10 then
          if s = 0 ∨ s < minScore then (0, 0, 1)
          else (s, fe (assistantText turns), 1)
        else (0, fe (assistantText turns), 0)
      else (0, 0, 0) := rfl

/-- C3: a judge (model-scoring) call is made exactly when the candidate
has exactly one stripped-role `Assistant` turn, exactly one `Human`
turn, and the rule score is a perfect 10; any candidate failing either
gate is rejected with zero model-scoring calls. -/
theorem judge_call_gating (fe : String → Nat) (minScore : Nat)
    (judge : Option Nat) (turns : List Turn) :
    (evalOutcome fe minScore judge turns).2.2 =
      if countRole turns "Assistant" = 1 ∧ countRole turns "Human" = 1 ∧
          fe (assistantText turns) = 10 then 1 else 0 := by
  by_cases hah : countRole turns "Assistant" = 1 ∧ countRole turns "Human" = 1
  · by_cases hr : fe (assistantText turns) = 10
    · rcases judge with _ | s
      · rw [evalOutcome_judge_none, if_pos hah, if_pos hr,
          if_pos ⟨hah.1, hah.2, hr⟩]
      · rw [evalOutcome_judge_some, if_pos hah, if_pos hr]
        by_cases hs : s = 0 ∨ s < minScore
        · rw [if_pos hs, if_pos ⟨hah.1, hah.2, hr⟩]
        · rw [if_neg hs, if_pos ⟨hah.1, hah.2, hr⟩]
    · rcases judge with _ | s
      · rw [evalOutcome_judge_none, if_pos hah, if_neg hr,
          if_neg (fun h => hr h.2.2)]
      · rw [evalOutcome_judge_some, if_pos hah, if_neg hr,
          if_neg (fun h => hr h.2.2)]
  · rcases judge with _ | s
    · rw [evalOutcome_judge_none, if_neg hah,
        if_neg (fun h => hah ⟨h.1, h.2.1⟩)]
    · rw [evalOutcome_judge_some, if_neg hah,
        if_neg (fun h => hah ⟨h.1, h.2.1⟩)]

/-- C2 (amended): a candidate is accepted — and only then enriched and
returned — iff it passes the structural gate, its rule score is 10, and
the judge call returns a parsed score `s` with `minScore ≤ s` and
`1 ≤ s`: a parsed score of 0 is falsy in Python and is treated like a
missing score, so equality with `minScore` is only accepted when
`minScore ≥ 1`. -/
theorem acceptance_iff_amended (fe : String → Nat) (minScore : Nat)
    (judge : Option Nat) (turns : List Turn) :
    candidateAccepted fe minScore judge turns ↔
      (countRole turns "Assistant" = 1 ∧ countRole turns "Human" = 1 ∧
        fe (assistantText turns) = 10 ∧
        ∃ s, judge = some s ∧ minScore ≤ s ∧ 1 ≤ s) := by
  unfold candidateAccepted
  by_cases hah : countRole turns "Assistant" = 1 ∧ countRole turns "Human" = 1
  · by_cases hr : fe (assistantText turns) = 10
    · rcases judge with _ | s
      · rw [evalOutcome_judge_none, if_pos hah, if_pos hr]
        exact iff_of_false (fun h => absurd h.2 (by decide))
          (fun h => by rcases h.2.2.2 with ⟨s, hs, -, -⟩; cases hs)
      · rw [evalOutcome_judge_some, if_pos hah, if_pos hr]
        by_cases hs : s = 0 ∨ s < minScore
        · rw [if_pos hs]
          refine iff_of_false (fun h => absurd h.2 (by decide)) ?_
          rintro ⟨-, -, -, s', hs', hmin, h1⟩
          injection hs' with hss
          omega
        · rw [if_neg hs]
          exact iff_of_true ⟨by omega, hr⟩
            ⟨hah.1, hah.2, hr, s, rfl, by omega, by omega⟩
    · rcases judge with _ | s
      · rw [evalOutcome_judge_none, if_pos hah, if_neg hr]
        exact iff_of_false (fun h => hr h.2) (fun h => hr h.2.2.1)
      · rw [evalOutcome_judge_some, if_pos hah, if_neg hr]
        exact iff_of_false (fun h => hr h.2) (fun h => hr h.2.2.1)
  · rcases judge with _ | s
    · rw [evalOutcome_judge_none, if_neg hah]
      exact iff_of_false (fun h => absurd h.2 (by decide))
        (fun h => hah ⟨h.1, h.2.1⟩)
    · rw [evalOutcome_judge_some, if_neg hah]
      exact iff_of_false (fun h => absurd h.2 (by decide))
        (fun h => hah ⟨h.1, h.2.1⟩)

/-- C2 counterexample: with `min_score = 0`, a candidate with one Human
and one Assistant turn, rule score 10, and a parsed judge score equal
to `min_score` (namely 0) is rejected, refuting the claim that a model
score exactly equal to `minScore` is always accepted. -/
theorem acceptance_minscore_cex :
    ¬ candidateAccepted (fun _ => 10) 0 (some 0)
        [⟨"Human", "q"⟩, ⟨"Assistant", "a"⟩] := by
  decide

lemma pssGo_all_fail (env : GenEnv) :
    ∀ fuel rc, (∀ k, k < fuel → attemptQualified env (rc + k) = []) →
      pssGo env rc fuel = ([], fuel) := by
  intro fuel
  induction fuel with
  | zero => intro rc _; rfl
  | succ fuel ih =>
    intro rc h
    have h0 : attemptQualified env rc = [] := by
      simpa using h 0 (Nat.succ_pos _)
    have hrest : ∀ k, k < fuel → attemptQualified env (rc + 1 + k) = [] := by
      intro k hk
      have := h (k + 1) (by omega)
      rwa [show rc + (k + 1) = rc + 1 + k by omega] at this
    rw [pssGo, if_pos h0, ih (rc + 1) hrest]

lemma pssGo_first_success (env : GenEnv) :
    ∀ k fuel rc, k < fuel →
      (∀ j, j < k → attemptQualified env (rc + j) = []) →
      attemptQualified env (rc + k) ≠ [] →
      pssGo env rc fuel = (attemptQualified env (rc + k), k + 1) := by
  intro k
  induction k with
  | zero =>
    intro fuel rc hk _ hne
    cases fuel with
    | zero => omega
    | succ fuel =>
      rw [pssGo, if_neg (by simpa using hne)]
      simp
  | succ k ih =>
    intro fuel rc hk hprev hne
    cases fuel with
    | zero => omega
    | succ fuel =>
      have h0 : attemptQualified env rc = [] := by
        simpa using hprev 0 (by omega)
      have hprev' : ∀ j, j < k → attemptQualified env (rc + 1 + j) = [] := by
        intro j hj
        have := hprev (j + 1) (by omega)
        rwa [show rc + (j + 1) = rc + 1 + j by omega] at this
      have hne' : attemptQualified env (rc + 1 + k) ≠ [] := by
        rwa [show rc + (k + 1) = rc + 1 + k by omega] at hne
      rw [pssGo, if_pos h0, ih fuel (rc + 1) (by omega) hprev' hne']
      rw [show rc + 1 + k = rc + (k + 1) by omega]

/-- C6: if no attempt yields a qualified candidate, the loop makes
exactly `sample_retry_times` attempts and returns the empty list; the
first attempt with a non-empty qualified list returns it immediately,
after exactly that many attempts. -/
theorem sample_retry_loop (env : GenEnv) (n : Nat) :
    ((∀ k, k < n → attemptQualified env k = []) →
      processSingleSample env n = ([], n))
    ∧ (∀ k, k < n → (∀ j, j < k → attemptQualified env j = []) →
        attemptQualified env k ≠ [] →
        processSingleSample env n = (attemptQualified env k, k + 1)) := by
  constructor
  · intro h
    exact pssGo_all_fail env n 0 (fun k hk => by simpa using h k hk)
  · intro k hk hprev hne
    have := pssGo_first_success env k n 0 hk
      (fun j hj => by simpa using hprev j hj) (by simpa using hne)
    simpa using this

/-- Witness environment where every attempt parses zero candidates. -/
def wEnvFail : GenEnv where
  formatEval := fun _ => 10
  minScore := 8
  judge := fun _ _ => some 9
  gen := fun _ => []
  sample := ⟨[], []⟩
  model := "m"
  taskType := "t"

/-- Witness environment where attempt 0 yields a qualifying candidate. -/
def wEnvOk : GenEnv where
  formatEval := fun _ => 10
  minScore := 8
  judge := fun _ _ => some 9
  gen := fun _ => [⟨[⟨"Human", "q"⟩, ⟨"Assistant", "a"⟩]⟩]
  sample := ⟨[], []⟩
  model := "a/b"
  taskType := "t"

/-- Witness for `sample_retry_loop` at concrete environments. -/
theorem sample_retry_loop_witness :
    processSingleSample wEnvFail 3 = ([], 3)
    ∧ processSingleSample wEnvOk 3 = (attemptQualified wEnvOk 0, 1) := by
  constructor
  · exact (sample_retry_loop wEnvFail 3).1 (fun k _ => rfl)
  · exact (sample_retry_loop wEnvOk 3).2 0 (by omega)
      (fun j hj => by omega) (by decide)

/-- C4 counterexample: on the same all-404 input with `retry_times = 3`,
`call_vllm_api_sync` propagates after a single attempt, but
`DataGenerator.call_api` makes all 3 attempts — and its backoff on an
all-timeout input is `2 ** attempt` (1 s then 2 s), not `(attempt+1)*2`.
The retry policy is therefore not uniform across backend callers. -/
theorem uniform_retry_policy_cex :
    (callVllmApiSync 3 (fun _ => ApiOutcome.httpError 404)).attemptsMade = 1
    ∧ (callApi 3 (fun _ => CallApiOutcome.badStatus 404 "not found")).attemptsMade = 3
    ∧ (callApi 3 (fun _ => CallApiOutcome.timeout)).sleeps = [1, 2] :=
  ⟨rfl, rfl, rfl⟩

/-- C4 (amended): the model_routes invokers follow the claimed policy —
a 4xx propagates immediately with zero retries and zero sleeps, and a
persistent timeout is retried with linear backoff `(attempt+1)*2` for
exactly `retry_times` total attempts — while `DataGenerator.call_api`
instead retries every failure (4xx statuses included) with exponential
backoff `2 ** attempt` and returns `none` after `retry_times`
attempts. -/
theorem retry_policy_amended :
    (∀ n outcomes s, 400 ≤ s → s < 500 →
        outcomes 0 = ApiOutcome.httpError s →
        callVllmApiSync (n + 1) outcomes =
          ⟨.error ("http error " ++ toString s), 1, []⟩)
    ∧ (∀ n, callVllmApiSync (n + 1) (fun _ => ApiOutcome.timeout) =
        ⟨.error "timeout", n + 1, (List.range n).map (fun i => (i + 1) * 2)⟩)
    ∧ (∀ n, callApi (n + 1) (fun _ => CallApiOutcome.badStatus 404 "err") =
        ⟨none, n + 1, (List.range n).map (fun i => 2 ^ i)⟩) := by
  refine ⟨?_, ?_, ?_⟩
  · intro n outcomes s h4 h5 h0
    have hcl : isClientError (outcomes 0) = true := by
      rw [h0]; simp [isClientError, h4, h5]
    have hok : okText (outcomes 0) = none := by
      rw [h0]; rfl
    unfold callVllmApiSync
    rw [vllmGo]
    simp only [hok, hcl, if_true]
    rw [h0]
    rfl
  · intro n
    unfold callVllmApiSync
    rw [vllmGo_const_fail ApiOutcome.timeout rfl rfl n 0]
    exact congrArg (InvokeResult.mk (.error "timeout") (n + 1))
      (List.map_congr_left fun i _ => by omega)
  · intro n
    unfold callApi
    rw [callApiGo_const_fail (CallApiOutcome.badStatus 404 "err") rfl n 0]
    exact congrArg (CallApiResult.mk none (n + 1))
      (List.map_congr_left fun i _ => by rw [Nat.zero_add])

/-- Witness for `retry_policy_amended` at `retry_times = 3`. -/
theorem retry_policy_amended_witness :
    callVllmApiSync 3 (fun _ => ApiOutcome.httpError 404) =
      ⟨.error ("http error " ++ toString 404), 1, []⟩
    ∧ callVllmApiSync 3 (fun _ => ApiOutcome.timeout) =
      ⟨.error "timeout", 3, [2, 4]⟩
    ∧ callApi 3 (fun _ => CallApiOutcome.badStatus 404 "err") =
      ⟨none, 3, [1, 2]⟩ := by
  refine ⟨?_, ?_, ?_⟩
  · exact retry_policy_amended.1 2 (fun _ => ApiOutcome.httpError 404) 404
      (by decide) (by decide) rfl
  · have h := retry_policy_amended.2.1 2
    rw [h]
    rfl
  · have h := retry_policy_amended.2.2 2
    rw [h]
    rfl

/-! ## Fail-open admission proxy (`_model_call_sync`)

The whole proxy call is embedded over an environment recording whether
the shared store is reachable, the results of the successive Lua-script
polls that fit in the `max_wait_time` window, and the outcome of the
backend call itself. -/

/-- The `ModelCallResponse` pydantic model. -/
structure ModelCallResponse where
  success : Bool
  content : String
  error : Option String
  deriving DecidableEq, Repr

/-- Environment of one `_model_call_sync` run. -/
structure CallEnv where
  storeUp : Bool
  pollResults : List Bool
  backend : Except String String

/-- Messages logged during a run (level, text). -/
inductive LogEvent where
  | warn (msg : String)
  | info (msg : String)
  | err (msg : String)
  deriving DecidableEq, Repr

/-- Response built from the backend call result: a success wraps the
returned text; a raised error is caught and reported with
`success=False` (by the inner `except` in the degraded path, or the
outer `except Exception` in the admission path). -/
def directCallResponse : Except String String → ModelCallResponse
  | .ok r => ⟨true, r, none⟩
  | .error e => ⟨false, "", some e⟩

/-- The capacity-exhausted response returned when no poll succeeds
within `max_wait_time`. -/
def busyResponse : ModelCallResponse :=
  ⟨false, "服务繁忙，请稍后再试", some "等待超时，并发数已达上限"⟩

/-- `_model_call_sync`: if the store is reachable, poll the atomic
acquire script until it grants a slot or the window is exhausted, then
run the backend call (releasing afterwards; store effects are covered
by the slot model); if the store is unreachable, log the connection
error plus a fallback warning and call the backend directly. -/
def modelCallSync (env : CallEnv) : ModelCallResponse × List LogEvent :=
  if env.storeUp then
    if env.pollResults.contains true then
      (directCallResponse env.backend, [])
    else
      (busyResponse, [.err "等待超时"])
  else
    (directCallResponse env.backend,
      [.err "Redis连接错误", .warn "Redis不可用，回退到直接调用模式"])

/-- C5: when the shared admission store is unreachable, the proxy fails
open: a warning is logged, the response is exactly the direct backend
call result (its text on success, its own error on failure), and the
store outage never surfaces as the admission-failure (busy) response. -/
theorem store_down_fails_open (env : CallEnv) (h : env.storeUp = false) :
    (modelCallSync env).1 = directCallResponse env.backend
    ∧ (∃ w, LogEvent.warn w ∈ (modelCallSync env).2)
    ∧ (modelCallSync env).1 ≠ busyResponse := by
  have hm : modelCallSync env =
      (directCallResponse env.backend,
        [.err "Redis连接错误", .warn "Redis不可用，回退到直接调用模式"]) := by
    unfold modelCallSync
    rw [h]
    rfl
  refine ⟨by rw [hm], ⟨"Redis不可用，回退到直接调用模式", by rw [hm]; simp⟩, ?_⟩
  rw [hm]
  cases env.backend with
  | ok r =>
    intro hc
    have := congrArg ModelCallResponse.success hc
    simp [directCallResponse, busyResponse] at this
  | error e =>
    intro hc
    have := congrArg ModelCallResponse.content hc
    simp only [directCallResponse, busyResponse] at this
    exact absurd this (by decide)

/-- Witness for `store_down_fails_open`: store down, backend succeeds. -/
theorem store_down_fails_open_witness :
    (modelCallSync ⟨false, [], .ok "hello"⟩).1 =
      directCallResponse (.ok "hello")
    ∧ (∃ w, LogEvent.warn w ∈ (modelCallSync ⟨false, [], .ok "hello"⟩).2)
    ∧ (modelCallSync ⟨false, [], .ok "hello"⟩).1 ≠ busyResponse :=
  store_down_fails_open ⟨false, [], .ok "hello"⟩ rfl

/-! ## Job lifecycle (task_manager.py)

The per-job state visible to the finalizer of `run_main_py` and `stop_task`:
the in-memory `finished` flag and `return_code`, and the task status
written to the database by `_update_task_status_in_db` (which always
overwrites the status of the record when called). -/

/-- Task status as stored in the database record. -/
inductive DbStatus where
  | running
  | finished
  | error
  | stopped
  deriving DecidableEq, Repr

/-- The lifecycle-relevant state of one job. -/
structure JobState where
  finished : Bool
  returnCode : Option Int
  dbStatus : DbStatus
  deriving DecidableEq, Repr

/-- State at job start: not finished, status `running` in the DB. -/
def jobInit : JobState := ⟨false, none, .running⟩

/-- A lifecycle operation: the subprocess exiting with a return code
(the `finally` block of `run_main_py`), or an explicit `stop_task`
(terminate, set `finished`, write status `stopped`). -/
inductive JobOp where
  | procExit (rc : Int)
  | stop
  deriving DecidableEq, Repr

/-- One lifecycle transition.  `procExit` records the return code and
writes `finished`/`error` to the DB according to the code; `stop`
writes `stopped` unconditionally — neither path checks whether a
terminal status was already recorded. -/
def jobStep (s : JobState) : JobOp → JobState
  | .procExit rc =>
    { finished := true, returnCode := some rc,
      dbStatus := if rc = 0 then .finished else .error }
  | .stop => { finished := true, returnCode := s.returnCode,
               dbStatus := .stopped }

/-- Run a sequence of lifecycle operations from job start. -/
def runJobOps (ops : List JobOp) : JobState :=
  ops.foldl jobStep jobInit

/-- C7 counterexample: a process exit with code 0 records terminal
status `finished`, but a subsequent `stop_task` on the already-finished
job overwrites it with `stopped` — the Running→terminal transition is
not exactly-once as recorded. -/
theorem terminal_status_overwrite_cex :
    (runJobOps [.procExit 0]).finished = true
    ∧ (runJobOps [.procExit 0]).dbStatus = DbStatus.finished
    ∧ (runJobOps [.procExit 0, .stop]).dbStatus = DbStatus.stopped :=
  ⟨rfl, rfl, rfl⟩

lemma jobStep_finished (s : JobState) (op : JobOp) :
    (jobStep s op).finished = true ∧ (jobStep s op).dbStatus ≠ .running := by
  cases op with
  | procExit rc =>
    refine ⟨rfl, ?_⟩
    simp only [jobStep]
    split_ifs <;> simp
  | stop => exact ⟨rfl, by simp [jobStep]⟩

lemma jobRun_inv (ops : List JobOp) :
    ∀ s : JobState, (s.finished = true → s.dbStatus ≠ DbStatus.running) →
      ((ops.foldl jobStep s).finished = true →
        (ops.foldl jobStep s).dbStatus ≠ DbStatus.running)
      ∧ (s.finished = true → (ops.foldl jobStep s).finished = true) := by
  induction ops with
  | nil => intro s h; exact ⟨h, fun hf => hf⟩
  | cons op rest ih =>
    intro s _
    have hstep := jobStep_finished s op
    have hrest := ih (jobStep s op) (fun _ => hstep.2)
    exact ⟨hrest.1, fun _ => hrest.2 hstep.1⟩

/-- C7 (amended): once the `finished` flag is set it is never unset by
any later operation, and the DB status never returns to `running`; the
exactly-once part of the claim fails (see the counterexample): a later
transition can overwrite the recorded terminal status. -/
theorem finished_flag_monotone (ops extra : List JobOp)
    (h : (runJobOps ops).finished = true) :
    (runJobOps (ops ++ extra)).finished = true
    ∧ (runJobOps (ops ++ extra)).dbStatus ≠ DbStatus.running := by
  unfold runJobOps at h ⊢
  rw [List.foldl_append]
  have hbase : jobInit.finished = true → jobInit.dbStatus ≠ DbStatus.running :=
    fun hf => by simp [jobInit] at hf
  have hne := (jobRun_inv ops jobInit hbase).1 h
  have hext := jobRun_inv extra (ops.foldl jobStep jobInit) (fun _ => hne)
  exact ⟨hext.2 h, hext.1 (hext.2 h)⟩

/-- Witness for `finished_flag_monotone`: exit code 1 then a stop. -/
theorem finished_flag_monotone_witness :
    (runJobOps ([JobOp.procExit 1] ++ [JobOp.stop])).finished = true
    ∧ (runJobOps ([JobOp.procExit 1] ++ [JobOp.stop])).dbStatus ≠
        DbStatus.running :=
  finished_flag_monotone [JobOp.procExit 1] [JobOp.stop] rfl

/-! ## delete_task (task_manager.py) -/

/-- Registry entry of one task (only the fields `delete_task` reads). -/
structure TaskEntry where
  finished : Bool
  hasProcess : Bool
  deriving DecidableEq, Repr

/-- The process-local job registry: `running_tasks` plus the
`_cleanup_timers` map (as the set of task ids with a pending timer). -/
structure Registry where
  tasks : List (String × TaskEntry)
  timers : List String
  deriving DecidableEq, Repr

/-- Observable side effects of a `delete_task` call, in program order. -/
inductive DeleteEvent where
  | terminateProcess (id : String)
  | removeEntry (id : String)
  | cancelTimer (id : String)
  deriving DecidableEq, Repr

/-- `running_tasks.get(task_id)` over the registry association list. -/
def lookupTask (reg : Registry) (id : String) : Option TaskEntry :=
  (reg.tasks.find? (fun p => p.1 == id)).map (·.2)

/-- `delete_task`: unknown id → error; non-terminal task → "stop first"
error with no state change; terminal task → terminate the process if
any, remove the registry entry, cancel and drop the cleanup timer. -/
def deleteTask (reg : Registry) (id : String) :
    (Bool × Option String) × Registry × List DeleteEvent :=
  match lookupTask reg id with
  | none => ((false, some "任务不存在"), reg, [])
  | some t =>
    if !t.finished then
      ((false, some "只能删除已停止的任务，请先停止任务"), reg, [])
    else
      ((true, none),
        ⟨reg.tasks.filter (fun p => !(p.1 == id)),
          reg.timers.filter (fun x => !(x == id))⟩,
        (if t.hasProcess then [DeleteEvent.terminateProcess id] else [])
          ++ [DeleteEvent.removeEntry id]
          ++ (if reg.timers.contains id then [DeleteEvent.cancelTimer id]
              else []))

/-- C9: deleting a non-terminal job returns the "stop first" error and
leaves registry and timers untouched; deleting a terminal job removes
its entry, and when it still has a process the terminate event precedes
the registry removal. -/
theorem delete_task_spec (reg : Registry) (id : String) (t : TaskEntry)
    (hfind : lookupTask reg id = some t) :
    (t.finished = false →
      deleteTask reg id =
        ((false, some "只能删除已停止的任务，请先停止任务"), reg, []))
    ∧ (t.finished = true →
        lookupTask (deleteTask reg id).2.1 id = none
        ∧ (t.hasProcess = true →
            (deleteTask reg id).2.2 =
              DeleteEvent.terminateProcess id :: DeleteEvent.removeEntry id ::
                (if reg.timers.contains id then [DeleteEvent.cancelTimer id]
                 else []))) := by
  constructor
  · intro hnf
    unfold deleteTask
    rw [hfind]
    simp [hnf]
  · intro hf
    have hdel : deleteTask reg id =
        ((true, none),
          ⟨reg.tasks.filter (fun p => !(p.1 == id)),
            reg.timers.filter (fun x => !(x == id))⟩,
          (if t.hasProcess then [DeleteEvent.terminateProcess id] else [])
            ++ [DeleteEvent.removeEntry id]
            ++ (if reg.timers.contains id then [DeleteEvent.cancelTimer id]
                else [])) := by
      unfold deleteTask
      rw [hfind]
      simp [hf]
    constructor
    · rw [hdel]
      unfold lookupTask
      have hn : List.find? (fun p => p.1 == id)
          (List.filter (fun p => !(p.1 == id)) reg.tasks) = none := by
        rw [List.find?_eq_none]
        intro p hp
        rw [List.mem_filter] at hp
        simpa using hp.2
      rw [hn]
      rfl
    · intro hp
      rw [hdel]
      simp [hp]

/-- Witness registry: one finished task with a live process and timer. -/
def regW : Registry := ⟨[("t1", ⟨true, true⟩)], ["t1"]⟩

/-- Witness for `delete_task_spec` on `regW`. -/
theorem delete_task_spec_witness :
    lookupTask (deleteTask regW "t1").2.1 "t1" = none :=
  ((delete_task_spec regW "t1" ⟨true, true⟩ rfl).2 rfl).1

/-! ## Log streaming (run_main_py / get_progress)

`run_main_py` puts every produced line both into the per-job
`output_queue` and into its `log_history`, then enqueues a `None`
sentinel.  `get_progress` snapshots the history, replays it, then
drains the queue until the sentinel, emitting a terminal event. -/

/-- An event sent to a log-stream subscriber. -/
inductive StreamEvent where
  | output (line : String)
  | finishedEv (rc : Option Int)
  deriving DecidableEq, Repr

/-- Drain the live queue: forward each line, stop at the `None`
sentinel with a terminal event carrying the return code. -/
def drainQueue (rc : Option Int) : List (Option String) → List StreamEvent
  | [] => []
  | none :: _ => [.finishedEv rc]
  | some l :: rest => .output l :: drainQueue rc rest

/-- The event sequence `get_progress` delivers to one subscriber, given
the history snapshot taken at connect time and the queue contents the
subscriber will consume. -/
def streamEvents (history : List String) (queueItems : List (Option String))
    (rc : Option Int) : List StreamEvent :=
  history.map .output ++ drainQueue rc queueItems

lemma drainQueue_append_lines (rc : Option Int) (xs : List String)
    (q : List (Option String)) :
    drainQueue rc (xs.map some ++ q) = xs.map .output ++ drainQueue rc q := by
  induction xs with
  | nil => rfl
  | cons x xs ih => simp [drainQueue, ih]

/-- C10: every produced line goes to both the history and the queue, so
a subscriber connecting after `ls` lines were produced — with the queue
still unconsumed — receives every line of `ls` twice (history replay,
then again from the queue) before the later lines `more` and the
terminal event. -/
theorem log_stream_duplicate_replay (ls more : List String) (rc : Option Int) :
    streamEvents ls (ls.map some ++ (more.map some ++ [none])) rc =
      ls.map .output ++ ls.map .output ++ more.map .output
        ++ [.finishedEv rc] := by
  unfold streamEvents
  rw [drainQueue_append_lines, drainQueue_append_lines]
  simp [drainQueue]

/-! ## Sample sharding (file_reader.py)

`FileReader.split_samples_in_memory` — also used verbatim by
`PipelineDataGenerator.split_samples_in_memory` — cuts the sample list
into `num_parts` consecutive slices of `ceil(total/num_parts)` samples
each, padding with empty parts once the samples run out. -/

/-- `FileReader.split_samples_in_memory`: `samples[i*per : (i+1)*per]`
for each `i < num_parts` with `per = ceil(total/num_parts)`; an empty
input yields `num_parts` empty parts. -/
def splitSamplesInMemory {α : Type} (samples : List α) (numParts : Nat) :
    List (List α) :=
  if samples.isEmpty then List.replicate numParts []
  else
    let per := (samples.length + numParts - 1) / numParts
    (List.range numParts).map fun i => (samples.drop (i * per)).take per

lemma length_le_mul_ceil (n len : Nat) (h : 0 < n) :
    len ≤ n * ((len + n - 1) / n) := by
  have heq := Nat.div_add_mod (len + n - 1) n
  have hr := Nat.mod_lt (len + n - 1) h
  generalize (len + n - 1) % n = r at heq hr
  generalize n * ((len + n - 1) / n) = m at heq ⊢
  omega

lemma flatten_chunks {α : Type} :
    ∀ (n : Nat) (p : Nat) (l : List α), l.length ≤ n * p →
      ((List.range n).map (fun i => (l.drop (i * p)).take p)).flatten = l := by
  intro n
  induction n with
  | zero =>
    intro p l h
    simp only [Nat.zero_mul, Nat.le_zero, List.length_eq_zero] at h
    simp [h]
  | succ n ih =>
    intro p l h
    rw [List.range_succ_eq_map]
    simp only [List.map_cons, List.map_map, Function.comp_def, List.flatten]
    have hhead : (l.drop (0 * p)).take p = l.take p := by
      rw [Nat.zero_mul, List.drop_zero]
    rw [hhead]
    have htail : ∀ i : Nat, (l.drop ((i + 1) * p)).take p =
        ((l.drop p).drop (i * p)).take p := by
      intro i
      rw [List.drop_drop, show (i + 1) * p = p + i * p by ring]
    have hmap : (List.range n).map (fun i => (l.drop ((i + 1) * p)).take p) =
        (List.range n).map (fun i => ((l.drop p).drop (i * p)).take p) :=
      List.map_congr_left fun i _ => htail i
    have hlen : (l.drop p).length ≤ n * p := by
      rw [List.length_drop]
      have : l.length ≤ (n + 1) * p := h
      have hnp : (n + 1) * p = n * p + p := by ring
      omega
    calc l.take p ++ ((List.range n).map
            (fun i => (l.drop ((i + 1) * p)).take p)).flatten
        = l.take p ++ ((List.range n).map
            (fun i => ((l.drop p).drop (i * p)).take p)).flatten := by rw [hmap]
      _ = l.take p ++ l.drop p := by rw [ih p (l.drop p) hlen]
      _ = l := List.take_append_drop p l

lemma flatten_replicate_nil {α : Type} (n : Nat) :
    (List.replicate n ([] : List α)).flatten = [] := by
  induction n with
  | zero => rfl
  | succ n ih => simp [List.replicate_succ, ih]

lemma getD_replicate_nil {α : Type} (n i : Nat) :
    (List.replicate n ([] : List α)).getD i [] = [] := by
  induction n generalizing i with
  | zero => simp [List.getD]
  | succ n ih =>
    cases i with
    | zero => rfl
    | succ i => exact ih i

/-- C8: the splitter returns exactly `num_parts` shards whose
concatenation is the original sample list in order (a partition into
consecutive runs), and shard `i` is exactly the slice
`samples[i*per : (i+1)*per]` with `per = ceil(total/num_parts)`. -/
theorem split_partition {α : Type} (samples : List α) (numParts : Nat)
    (h : 0 < numParts) :
    (splitSamplesInMemory samples numParts).length = numParts
    ∧ (splitSamplesInMemory samples numParts).flatten = samples
    ∧ ∀ i, i < numParts →
        (splitSamplesInMemory samples numParts).getD i [] =
          (samples.drop
              (i * ((samples.length + numParts - 1) / numParts))).take
            ((samples.length + numParts - 1) / numParts) := by
  by_cases hs : samples = []
  · subst hs
    unfold splitSamplesInMemory
    rw [if_pos (show ([] : List α).isEmpty = true from rfl)]
    refine ⟨List.length_replicate _ _, flatten_replicate_nil numParts, ?_⟩
    intro i _
    rw [getD_replicate_nil]
    simp
  · unfold splitSamplesInMemory
    have hf : samples.isEmpty = false := by
      cases samples with
      | nil => exact absurd rfl hs
      | cons a l => rfl
    rw [if_neg (by rw [hf]; exact Bool.false_ne_true)]
    refine ⟨by simp, ?_, ?_⟩
    · exact flatten_chunks numParts _ samples
        (length_le_mul_ceil numParts samples.length h)
    · intro i hi
      rw [List.getD_eq_getElem?_getD, List.getElem?_map, List.getElem?_range hi]
      rfl

/-- Witness for `split_partition`: 5 samples over 2 endpoints give
shards of ceil(5/2)=3 and 2 samples that re-join to the input. -/
theorem split_partition_witness :
    (splitSamplesInMemory ([1, 2, 3, 4, 5] : List Nat) 2).flatten =
      [1, 2, 3, 4, 5] :=
  (split_partition [1, 2, 3, 4, 5] 2 (by decide)).2.1

end InstructGen
